import Mathlib

/-!
Verification of the local capability runtime (capability.c++ of this repository).

The development shallowly embeds the parts of the source that the verified
properties concern: the local call context (getParams, releaseParams,
getResults, tailCall, allowAsyncCancellation, isCanceled, onTailCall), the
event-loop scheduling performed by the call method of LocalClient and by the
send method of LocalRequest, the queued client (call buffering,
whenMoreResolved, the three-branch fork fired on resolution), the cancellation
plumbing of send, and broken capabilities.

External kj primitives (evalLater, fork with ordered branches, exclusiveJoin,
daemonize, promise fulfillers) are not part of the analysed sources; their
behaviour is modelled from the spec of the host runtime: branches of a fork
fire in addition order when the fork resolves, and evalLater defers a thunk to
a later event-loop turn.
-/

/-- Abstract request or response message: only the root object pointer content
is modelled. -/
structure LocalMessage where
  root : Nat
  deriving DecidableEq

/-- A response value as stored in the call context: the reader view of the root
and the identity of the owning response hook. -/
structure ResponseV where
  reader : Nat
  hookId : Nat
  deriving DecidableEq

/-- The per-call record LocalCallContext from the source: the request message
(releasable), the lazily allocated response with its root builder, the optional
tail-call pipeline fulfiller together with what was delivered to it, the
one-shot cancel-allowed signal and the cancel-requested flag. Builders are
identified by the allocation that owns them; nextAlloc supplies fresh
allocation identities, so distinct allocations have distinct builders. -/
structure LocalCallContext where
  request : Option LocalMessage
  response : Option ResponseV
  responseBuilder : Nat
  tailCallFulfiller : Option Nat
  tailPipelineDelivered : Option Nat
  cancelAllowedFulfilled : Bool
  cancelRequested : Bool
  nextAlloc : Nat
  deriving DecidableEq

/-- Source getParams: returns the root reader of the request message, and fails
after releaseParams has nulled the request. The source failure message uses a
contracted verb; it is rendered here without the apostrophe. -/
def LocalCallContext.getParams (ctx : LocalCallContext) : Except String Nat :=
  match ctx.request with
  | some r => Except.ok r.root
  | none => Except.error "Cannot call getParams() after releaseParams()."

/-- Source releaseParams: sets the request to null. -/
def LocalCallContext.releaseParams (ctx : LocalCallContext) : LocalCallContext :=
  { ctx with request := none }

/-- Source getResults: on first use allocates a LocalResponse sized by the hint
and stores its root builder and the response view; afterwards it returns the
stored builder unchanged. -/
def LocalCallContext.getResults (firstSegmentWordSize : Nat) (ctx : LocalCallContext) :
    Nat × LocalCallContext :=
  match ctx.response with
  | none =>
      let builder := ctx.nextAlloc
      (builder,
        { ctx with
          response := some { reader := builder, hookId := builder },
          responseBuilder := builder,
          nextAlloc := ctx.nextAlloc + 1 })
  | some _ => (ctx.responseBuilder, ctx)

/-- Source allowAsyncCancellation: requires releaseParams to have run (the
request must be null) and then fulfils the one-shot cancel-allowed signal. -/
def LocalCallContext.allowAsyncCancellation (ctx : LocalCallContext) :
    Except String LocalCallContext :=
  match ctx.request with
  | some _ => Except.error "Must call releaseParams() before allowAsyncCancellation()."
  | none => Except.ok { ctx with cancelAllowedFulfilled := true }

/-- Source isCanceled: reads the cancel-requested flag. -/
def LocalCallContext.isCanceled (ctx : LocalCallContext) : Bool :=
  ctx.cancelRequested

/-- Source onTailCall: stores the fulfiller of a fresh promise and returns that
promise to the subscriber. -/
def LocalCallContext.onTailCall (fulfillerId : Nat) (ctx : LocalCallContext) :
    LocalCallContext :=
  { ctx with tailCallFulfiller := some fulfillerId }

/-- A request hook handed to tailCall: its target client and payload message. -/
structure RequestHookM where
  target : Nat
  payload : LocalMessage
  deriving DecidableEq

/-- What sending a request on its target yields: the completion future, the
pipeline hook obtained from the promise, and the eventual response. -/
structure SentCall where
  completion : Nat
  pipeline : Nat
  response : ResponseV
  deriving DecidableEq

/-- The void promise returned by directTailCall: the forwarded completion of the
sent request, chained with a continuation that installs the tail response as
this context response. -/
structure TailVoidPromise where
  forwardedCompletion : Nat
  responseToInstall : ResponseV
  deriving DecidableEq

/-- The pair returned by directTailCall, as in the source. -/
structure VoidPromiseAndPipeline where
  promise : TailVoidPromise
  pipeline : Nat
  deriving DecidableEq

/-- Source directTailCall: requires that the results struct has not been
initialised, releases the params, sends the supplied request on its target
(sendFn models the send method of the host RequestHook), and returns the
chained void promise together with the pipeline of the sent request. -/
def LocalCallContext.directTailCall (sendFn : RequestHookM → SentCall)
    (req : RequestHookM) (ctx : LocalCallContext) :
    Except String (VoidPromiseAndPipeline × LocalCallContext) :=
  match ctx.response with
  | some _ => Except.error "Cannot call tailCall() after initializing the results struct."
  | none =>
      let ctx1 := ctx.releaseParams
      let sent := sendFn req
      Except.ok
        ({ promise := { forwardedCompletion := sent.completion,
                        responseToInstall := sent.response },
           pipeline := sent.pipeline },
         ctx1)

/-- Source tailCall: performs directTailCall and, when an onTailCall subscriber
is present, fulfils it with the forwarded pipeline; the void promise of the
direct tail call is returned to the server. -/
def LocalCallContext.tailCall (sendFn : RequestHookM → SentCall)
    (req : RequestHookM) (ctx : LocalCallContext) :
    Except String (TailVoidPromise × LocalCallContext) :=
  match ctx.directTailCall sendFn req with
  | Except.error e => Except.error e
  | Except.ok (vp, ctx1) =>
      match ctx1.tailCallFulfiller with
      | some _ => Except.ok (vp.promise, { ctx1 with tailPipelineDelivered := some vp.pipeline })
      | none => Except.ok (vp.promise, ctx1)

/-- Running the continuation of the tail void promise once the forwarded
request has completed: the tail response becomes this context response. -/
def runTailVoidPromise (vp : TailVoidPromise) (ctx : LocalCallContext) :
    LocalCallContext :=
  { ctx with response := some vp.responseToInstall }

/-- Events observable on the local call path. -/
inductive Ev where
  | sendInvoked (cid : Nat)
  | sendReturned (cid : Nat)
  | selfResolutionSet
  | callInitiated (cid : Nat)
  | wmrResolved (wid : Nat)
  | turnStart
  | serverDispatch (cid : Nat)
  | completionObservable (cid : Nat)
  deriving DecidableEq

/-- The event loop: the queue of deferred dispatch tasks (identified by call
id, FIFO) and the trace of events emitted so far. -/
structure Loop where
  tasks : List Nat
  trace : List Ev
  deriving DecidableEq

/-- Modelled from the spec: the defer-to-later primitive of the host event loop
(evalLater) posts a thunk so that it runs on a subsequent turn. Here the thunk
is the deferred server dispatch of one call. -/
def evalLater (cid : Nat) (st : Loop) : Loop :=
  { st with tasks := st.tasks ++ [cid] }

/-- Source LocalClient call: the server dispatch is never invoked synchronously;
the only synchronous effect on the event loop is scheduling the dispatch thunk
through evalLater. The pipeline and completion plumbing that the source also
sets up does not touch the server. -/
def LocalClient.call (cid : Nat) (st : Loop) : Loop :=
  evalLater cid st

/-- Source LocalRequest send: builds the call context, invokes the client call,
which defers the dispatch, forks the completion promise and returns to the
caller. -/
def LocalRequest.send (cid : Nat) (st : Loop) : Loop :=
  let st1 := { st with trace := st.trace ++ [Ev.sendInvoked cid] }
  let st2 := LocalClient.call cid st1
  { st2 with trace := st2.trace ++ [Ev.sendReturned cid] }

/-- One event-loop turn runs the front deferred task: the server dispatch
executes and, the dispatch promise having completed, the forked completion
branch makes the result observable to the caller. -/
def turnEvents (cid : Nat) : List Ev :=
  [Ev.turnStart, Ev.serverDispatch cid, Ev.completionObservable cid]

/-- Trace produced by draining a task queue, one turn per task, FIFO. -/
def turnsTrace : List Nat → List Ev
  | [] => []
  | cid :: rest => turnEvents cid ++ turnsTrace rest

/-- Drain the loop: run turns until no deferred task remains. -/
def drain : List Nat → List Ev → Loop
  | [], tr => { tasks := [], trace := tr }
  | cid :: rest, tr => drain rest (tr ++ turnEvents cid)

/-- Run the event loop until its task queue is empty. -/
def runAll (st : Loop) : Loop :=
  drain st.tasks st.trace

/-- Source QueuedClient state relevant to call buffering: the continuations
chained on the call-forwarding fork branch (one per buffered call, in addition
order) and the branches of the client-resolution fork handed out by
whenMoreResolved. -/
structure QueuedClient where
  queuedCalls : List Nat
  wmrBranches : List Nat
  deriving DecidableEq

/-- A queued client with nothing buffered yet. -/
def emptyQueuedClient : QueuedClient :=
  { queuedCalls := [], wmrBranches := [] }

/-- Source QueuedClient call before resolution: chains off the call-forwarding
fork a continuation that will invoke the real client; fork branches accumulate
in addition order. -/
def QueuedClient.call (cid : Nat) (qc : QueuedClient) : QueuedClient :=
  { qc with queuedCalls := qc.queuedCalls ++ [cid] }

/-- Source QueuedClient whenMoreResolved: returns a fresh branch of the
client-resolution fork. -/
def QueuedClient.whenMoreResolved (wid : Nat) (qc : QueuedClient) : QueuedClient :=
  { qc with wmrBranches := qc.wmrBranches ++ [wid] }

/-- An operation performed on a queued client before its promise resolves. -/
inductive QOp where
  | queuedCall (cid : Nat)
  | registerWmr (wid : Nat)
  deriving DecidableEq

/-- Apply one queued-client operation. -/
def applyQOp (qc : QueuedClient) (op : QOp) : QueuedClient :=
  match op with
  | QOp.queuedCall cid => QueuedClient.call cid qc
  | QOp.registerWmr wid => QueuedClient.whenMoreResolved wid qc

/-- Apply a sequence of queued-client operations in order. -/
def applyQOps (ops : List QOp) (qc : QueuedClient) : QueuedClient :=
  ops.foldl applyQOp qc

/-- The call invocations among a sequence of queued-client operations, in the
order they were invoked. -/
def queuedCallIds (ops : List QOp) : List Nat :=
  ops.filterMap fun op =>
    match op with
    | QOp.queuedCall cid => some cid
    | QOp.registerWmr _ => none

/-- The whenMoreResolved registrations among a sequence of queued-client
operations, in order. -/
def wmrIds (ops : List QOp) : List Nat :=
  ops.filterMap fun op =>
    match op with
    | QOp.queuedCall _ => none
    | QOp.registerWmr wid => some wid

/-- Forwarding the buffered calls when the call-forwarding branch fires: each
buffered continuation invokes the call method of the real client, in addition
order; the real client is a local client, so each initiation defers its server
dispatch through evalLater. -/
def initiateQueuedCalls : List Nat → Loop → Loop
  | [], st => st
  | cid :: rest, st =>
      initiateQueuedCalls rest
        (LocalClient.call cid { st with trace := st.trace ++ [Ev.callInitiated cid] })

/-- Resolution of the queued client promise. The three branches of the fork
fire in construction order: first the self-resolution op sets the redirect,
then the call-forwarding fork initiates every buffered call, then the
client-resolution fork resolves every whenMoreResolved promise. -/
def QueuedClient.resolve (qc : QueuedClient) (st : Loop) : Loop :=
  let st1 := { st with trace := st.trace ++ [Ev.selfResolutionSet] }
  let st2 := initiateQueuedCalls qc.queuedCalls st1
  { st2 with trace := st2.trace ++ qc.wmrBranches.map Ev.wmrResolved }

/-- The real-client call initiations recorded in a trace, in order. -/
def forwardedCalls (tr : List Ev) : List Nat :=
  tr.filterMap fun e =>
    match e with
    | Ev.callInitiated cid => some cid
    | _ => none

/-- Full trace of the queued-client scenario: operations buffered on a fresh
queued client, then resolution of its promise, then the event loop drained. -/
def queuedScenarioTrace (ops : List QOp) : List Ev :=
  (runAll (QueuedClient.resolve (applyQOps ops emptyQueuedClient)
    { tasks := [], trace := [] })).trace

/-- State of one in-flight local call after the send method of LocalRequest:
the call context, the forked server-completion promise with its daemonised
branch (exclusive-joined with the cancel-allowed promise), and whether the
caller still holds its branch of the fork. -/
structure SendState where
  ctx : LocalCallContext
  serverCompleted : Bool
  serverDropped : Bool
  callerHoldsFuture : Bool
  deriving DecidableEq

/-- Dropping the caller branch of the forked completion promise (source send
and the Canceler guard). The Canceler attached to the caller branch sets
cancelRequested on the context. The daemonised branch keeps driving the server
future unless the cancel-allowed promise has already fired and won the
exclusive join, in which case the server future is dropped. -/
def dropCallerFuture (s : SendState) : SendState :=
  let ctx1 := { s.ctx with cancelRequested := true }
  if s.ctx.cancelAllowedFulfilled && !s.serverCompleted then
    { s with ctx := ctx1, callerHoldsFuture := false, serverDropped := true }
  else
    { s with ctx := ctx1, callerHoldsFuture := false }

/-- The event loop driving the daemonised branch: a server future that was not
dropped runs to completion. -/
def driveServer (s : SendState) : SendState :=
  if s.serverDropped then s else { s with serverCompleted := true }

/-- Modelled from the spec: a broken client hook carries a permanent failure
and returns the same failure from every operation. The newBrokenCap factory is
declared in this repository but its definition is outside the analysed
sources. -/
structure BrokenClientHook where
  cause : String
  deriving DecidableEq

/-- Operations of the client hook interface exercised on a broken capability. -/
inductive CapOp where
  | newCall (interfaceId methodId : Nat)
  | call (interfaceId methodId : Nat)
  | whenResolved
  deriving DecidableEq

/-- Modelled from the spec: every operation on a broken hook fails with the
recorded cause instead of crashing. -/
def BrokenClientHook.perform (hook : BrokenClientHook) (op : CapOp) :
    Except String Unit :=
  Except.error hook.cause

/-- Modelled from the spec: the newBrokenCap factory records the failure
cause. -/
def newBrokenCap (message : String) : BrokenClientHook :=
  { cause := message }

/-- Source: the Capability Client constructor taking nullptr installs
newBrokenCap with the message Called null capability. -/
def clientFromNullptr : BrokenClientHook :=
  newBrokenCap "Called null capability."

/-- A sample call context whose params are still present, used by witnesses. -/
def sampleCtx : LocalCallContext :=
  { request := some { root := 9 }, response := none, responseBuilder := 0,
    tailCallFulfiller := some 3, tailPipelineDelivered := none,
    cancelAllowedFulfilled := false, cancelRequested := false, nextAlloc := 0 }

/-- A sample in-flight call, used by witnesses. -/
def sampleSend : SendState :=
  { ctx := sampleCtx, serverCompleted := false, serverDropped := false,
    callerHoldsFuture := true }

/-- A sample host send function for tail-call witnesses. -/
def sampleSendFn (r : RequestHookM) : SentCall :=
  { completion := r.target, pipeline := r.target + 1,
    response := { reader := r.payload.root, hookId := 7 } }

/-- A sample tail request, used by witnesses. -/
def sampleReq : RequestHookM :=
  { target := 4, payload := { root := 9 } }

/-- Claim C6: getResults is idempotent: a second invocation, with any size
hint, returns the same builder as the first and leaves the context unchanged,
so repeated reads through the returned builders are bit-identical. -/
theorem getResults_idempotent (ctx : LocalCallContext) (n m : Nat) :
    LocalCallContext.getResults m (LocalCallContext.getResults n ctx).2
      = ((LocalCallContext.getResults n ctx).1, (LocalCallContext.getResults n ctx).2) := by
  cases h : ctx.response <;> simp [LocalCallContext.getResults, h]

/-- Claim C7: invoking tailCall after getResults has allocated the response is
a contract violation: the tail call fails instead of forwarding. -/
theorem tailCall_after_getResults_fails (ctx : LocalCallContext) (n : Nat)
    (sendFn : RequestHookM → SentCall) (req : RequestHookM) :
    LocalCallContext.tailCall sendFn req (LocalCallContext.getResults n ctx).2
      = Except.error "Cannot call tailCall() after initializing the results struct." := by
  cases h : ctx.response <;>
    simp [LocalCallContext.getResults, LocalCallContext.tailCall,
      LocalCallContext.directTailCall, h]

/-- Claim C8: allowAsyncCancellation before releaseParams is an error; after
releaseParams it succeeds and fulfils the one-shot cancel-allowed signal. -/
theorem allowAsyncCancellation_requires_release (ctx : LocalCallContext)
    (m : LocalMessage) (h : ctx.request = some m) :
    LocalCallContext.allowAsyncCancellation ctx
        = Except.error "Must call releaseParams() before allowAsyncCancellation()." ∧
    LocalCallContext.allowAsyncCancellation (LocalCallContext.releaseParams ctx)
        = Except.ok { LocalCallContext.releaseParams ctx with cancelAllowedFulfilled := true } := by
  constructor
  · simp [LocalCallContext.allowAsyncCancellation, h]
  · simp [LocalCallContext.allowAsyncCancellation, LocalCallContext.releaseParams]

/-- Witness for claim C8 at a concrete call context. -/
theorem allowAsyncCancellation_requires_release_witness :
    LocalCallContext.allowAsyncCancellation sampleCtx
        = Except.error "Must call releaseParams() before allowAsyncCancellation()." ∧
    LocalCallContext.allowAsyncCancellation (LocalCallContext.releaseParams sampleCtx)
        = Except.ok { LocalCallContext.releaseParams sampleCtx with cancelAllowedFulfilled := true } :=
  allowAsyncCancellation_requires_release sampleCtx { root := 9 } rfl

/-- Claim C9: getParams succeeds with the root reader of the request message
whenever releaseParams has not been called, and fails after releaseParams. -/
theorem getParams_release_spec (ctx : LocalCallContext) (m : LocalMessage)
    (h : ctx.request = some m) :
    LocalCallContext.getParams ctx = Except.ok m.root ∧
    LocalCallContext.getParams (LocalCallContext.releaseParams ctx)
      = Except.error "Cannot call getParams() after releaseParams()." := by
  constructor
  · simp [LocalCallContext.getParams, h]
  · simp [LocalCallContext.getParams, LocalCallContext.releaseParams]

/-- Witness for claim C9 at a concrete call context. -/
theorem getParams_release_spec_witness :
    LocalCallContext.getParams sampleCtx = Except.ok 9 ∧
    LocalCallContext.getParams (LocalCallContext.releaseParams sampleCtx)
      = Except.error "Cannot call getParams() after releaseParams()." :=
  getParams_release_spec sampleCtx { root := 9 } rfl

/-- Claim C10: the Capability Client constructed from a null pointer is a
broken capability whose recorded cause is the message Called null capability.,
and every operation on it fails with that cause rather than crashing. -/
theorem clientFromNullptr_broken :
    clientFromNullptr.cause = "Called null capability." ∧
    ∀ op : CapOp, BrokenClientHook.perform clientFromNullptr op
      = Except.error "Called null capability." :=
  ⟨rfl, fun _ => rfl⟩

/-- Draining the queue appends one turn of events per task, FIFO. -/
theorem drain_trace (ts : List Nat) (tr : List Ev) :
    (drain ts tr).trace = tr ++ turnsTrace ts := by
  induction ts generalizing tr with
  | nil => simp [drain, turnsTrace]
  | cons cid rest ih => simp [drain, turnsTrace, ih, List.append_assoc]

/-- Running the loop appends the turn events of the queued tasks to the trace. -/
theorem runAll_trace (st : Loop) :
    (runAll st).trace = st.trace ++ turnsTrace st.tasks :=
  drain_trace st.tasks st.trace

/-- Turn traces distribute over queue concatenation. -/
theorem turnsTrace_append (a b : List Nat) :
    turnsTrace (a ++ b) = turnsTrace a ++ turnsTrace b := by
  induction a with
  | nil => simp [turnsTrace]
  | cons cid rest ih => simp [turnsTrace, ih, List.append_assoc]

/-- Claim C1: on a Local Client, the server dispatch is never executed within
the stack frame of send: the only events emitted synchronously by send are
its entry and its return, send merely appends the dispatch task to the event
loop queue, and the dispatch itself runs only in a later event-loop turn, after
send has returned and a turn boundary has passed. -/
theorem localClient_dispatch_deferred (cid : Nat) (st : Loop) :
    (LocalRequest.send cid st).trace
        = st.trace ++ [Ev.sendInvoked cid, Ev.sendReturned cid] ∧
    (LocalRequest.send cid st).tasks = st.tasks ++ [cid] ∧
    ∃ pre post,
      (runAll (LocalRequest.send cid st)).trace
          = pre ++ Ev.turnStart :: Ev.serverDispatch cid :: post ∧
      Ev.sendReturned cid ∈ pre := by
  refine ⟨?_, ?_, ?_⟩
  · simp [LocalRequest.send, LocalClient.call, evalLater]
  · simp [LocalRequest.send, LocalClient.call, evalLater]
  · refine ⟨st.trace ++ [Ev.sendInvoked cid, Ev.sendReturned cid] ++ turnsTrace st.tasks,
      [Ev.completionObservable cid], ?_, ?_⟩
    · simp [runAll_trace, LocalRequest.send, LocalClient.call, evalLater,
        turnsTrace_append, turnsTrace, turnEvents, List.append_assoc]
    · simp

/-- Buffered-call applications accumulate the queued call ids in order. -/
theorem applyQOps_queuedCalls (ops : List QOp) (qc : QueuedClient) :
    (applyQOps ops qc).queuedCalls = qc.queuedCalls ++ queuedCallIds ops := by
  induction ops generalizing qc with
  | nil => simp [applyQOps, queuedCallIds]
  | cons op rest ih =>
      cases op with
      | queuedCall cid =>
          simp [applyQOps, List.foldl_cons, applyQOp, QueuedClient.call,
            queuedCallIds, List.filterMap_cons] at ih ⊢
          simp [ih, List.append_assoc]
      | registerWmr wid =>
          simp [applyQOps, List.foldl_cons, applyQOp, QueuedClient.whenMoreResolved,
            queuedCallIds, List.filterMap_cons] at ih ⊢
          simp [ih]

/-- Buffered-call applications accumulate the whenMoreResolved branch ids in
order. -/
theorem applyQOps_wmrBranches (ops : List QOp) (qc : QueuedClient) :
    (applyQOps ops qc).wmrBranches = qc.wmrBranches ++ wmrIds ops := by
  induction ops generalizing qc with
  | nil => simp [applyQOps, wmrIds]
  | cons op rest ih =>
      cases op with
      | queuedCall cid =>
          simp [applyQOps, List.foldl_cons, applyQOp, QueuedClient.call,
            wmrIds, List.filterMap_cons] at ih ⊢
          simp [ih]
      | registerWmr wid =>
          simp [applyQOps, List.foldl_cons, applyQOp, QueuedClient.whenMoreResolved,
            wmrIds, List.filterMap_cons] at ih ⊢
          simp [ih, List.append_assoc]

/-- Initiating the buffered calls emits one initiation event per call, in
order, and appends the dispatch tasks to the queue in the same order. -/
theorem initiateQueuedCalls_spec (cs : List Nat) (st : Loop) :
    initiateQueuedCalls cs st
      = { tasks := st.tasks ++ cs, trace := st.trace ++ cs.map Ev.callInitiated } := by
  induction cs generalizing st with
  | nil => simp [initiateQueuedCalls]
  | cons cid rest ih =>
      simp [initiateQueuedCalls, LocalClient.call, evalLater, ih, List.append_assoc]

/-- Resolution fires the three fork branches in construction order: the
self-resolution op, then one initiation per buffered call in order, then one
resolution per whenMoreResolved branch in order; the dispatch tasks of the
initiated calls are queued in order. -/
theorem resolve_spec (qc : QueuedClient) (st : Loop) :
    QueuedClient.resolve qc st
      = { tasks := st.tasks ++ qc.queuedCalls,
          trace := st.trace ++ Ev.selfResolutionSet ::
            (qc.queuedCalls.map Ev.callInitiated ++ qc.wmrBranches.map Ev.wmrResolved) } := by
  simp [QueuedClient.resolve, initiateQueuedCalls_spec, List.append_assoc]

/-- Traces made only of initiation events project to their call ids. -/
theorem forwardedCalls_map_callInitiated (cs : List Nat) :
    forwardedCalls (cs.map Ev.callInitiated) = cs := by
  induction cs with
  | nil => rfl
  | cons c rest ih =>
      simp only [forwardedCalls, List.map_cons, List.filterMap_cons] at ih ⊢
      simp [ih]

/-- Traces made only of whenMoreResolved events contain no call initiation. -/
theorem forwardedCalls_map_wmr (ws : List Nat) :
    forwardedCalls (ws.map Ev.wmrResolved) = [] := by
  induction ws with
  | nil => rfl
  | cons w rest ih =>
      simp only [forwardedCalls, List.map_cons, List.filterMap_cons] at ih ⊢
      simp [ih]

/-- Call initiations project through trace concatenation. -/
theorem forwardedCalls_append (a b : List Ev) :
    forwardedCalls (a ++ b) = forwardedCalls a ++ forwardedCalls b := by
  simp [forwardedCalls, List.filterMap_append]

/-- The self-resolution event is not a call initiation. -/
theorem forwardedCalls_cons_selfRes (l : List Ev) :
    forwardedCalls (Ev.selfResolutionSet :: l) = forwardedCalls l := by
  simp [forwardedCalls, List.filterMap_cons]

/-- Claim C2: for a queued client, any sequence of operations buffered before
resolution is forwarded to the underlying client, on resolution, in exactly
the order in which call was invoked on the queued client (FIFO). -/
theorem queuedClient_forwarding_fifo (ops : List QOp) (st : Loop) :
    forwardedCalls ((QueuedClient.resolve (applyQOps ops emptyQueuedClient) st).trace)
      = forwardedCalls st.trace ++ queuedCallIds ops := by
  rw [resolve_spec]
  simp only [applyQOps_queuedCalls, applyQOps_wmrBranches, emptyQueuedClient,
    List.nil_append]
  rw [forwardedCalls_append, forwardedCalls_cons_selfRes, forwardedCalls_append,
    forwardedCalls_map_callInitiated, forwardedCalls_map_wmr, List.append_nil]

/-- Draining the queue makes the completion of every queued call observable. -/
theorem completionObservable_mem_turnsTrace {c : Nat} {cs : List Nat} (h : c ∈ cs) :
    Ev.completionObservable c ∈ turnsTrace cs := by
  induction cs with
  | nil => cases h
  | cons cid rest ih =>
      rcases List.mem_cons.mp h with h1 | h2
      · subst h1
        simp [turnsTrace, turnEvents]
      · simp only [turnsTrace]
        exact List.mem_append_right _ (ih h2)

/-- Claim C3: when the promise of a queued client fires, every call queued
before resolution is initiated before any whenMoreResolved future resolves,
and every whenMoreResolved future resolves before the completion of any queued
call becomes observable by the caller; the completions themselves do become
observable once the loop is drained. -/
theorem queuedClient_resolution_ordering (ops : List QOp) (c w : Nat)
    (hc : QOp.queuedCall c ∈ ops) (hw : QOp.registerWmr w ∈ ops) :
    Ev.completionObservable c ∈ queuedScenarioTrace ops ∧
    List.indexOf (Ev.callInitiated c) (queuedScenarioTrace ops)
      < List.indexOf (Ev.wmrResolved w) (queuedScenarioTrace ops) ∧
    List.indexOf (Ev.wmrResolved w) (queuedScenarioTrace ops)
      < List.indexOf (Ev.completionObservable c) (queuedScenarioTrace ops) := by
  have hc' : c ∈ queuedCallIds ops :=
    List.mem_filterMap.mpr ⟨QOp.queuedCall c, hc, rfl⟩
  have hw' : w ∈ wmrIds ops :=
    List.mem_filterMap.mpr ⟨QOp.registerWmr w, hw, rfl⟩
  have htr : queuedScenarioTrace ops
      = (Ev.selfResolutionSet :: List.map Ev.callInitiated (queuedCallIds ops))
        ++ (List.map Ev.wmrResolved (wmrIds ops) ++ turnsTrace (queuedCallIds ops)) := by
    simp [queuedScenarioTrace, runAll_trace, resolve_spec, applyQOps_queuedCalls,
      applyQOps_wmrBranches, emptyQueuedClient, List.append_assoc]
  have hcA : Ev.callInitiated c
      ∈ Ev.selfResolutionSet :: List.map Ev.callInitiated (queuedCallIds ops) :=
    List.mem_cons_of_mem _ (List.mem_map_of_mem _ hc')
  have hwB : Ev.wmrResolved w ∈ List.map Ev.wmrResolved (wmrIds ops) :=
    List.mem_map_of_mem _ hw'
  have hwA : Ev.wmrResolved w
      ∉ Ev.selfResolutionSet :: List.map Ev.callInitiated (queuedCallIds ops) := by
    simp
  have hkA : Ev.completionObservable c
      ∉ Ev.selfResolutionSet :: List.map Ev.callInitiated (queuedCallIds ops) := by
    simp
  have hkB : Ev.completionObservable c ∉ List.map Ev.wmrResolved (wmrIds ops) := by
    simp
  have hmem : Ev.completionObservable c ∈ queuedScenarioTrace ops := by
    rw [htr]
    exact List.mem_append_right _
      (List.mem_append_right _ (completionObservable_mem_turnsTrace hc'))
  refine ⟨hmem, ?_, ?_⟩
  · rw [htr, List.indexOf_append_of_mem hcA, List.indexOf_append_of_not_mem hwA]
    calc List.indexOf (Ev.callInitiated c)
          (Ev.selfResolutionSet :: List.map Ev.callInitiated (queuedCallIds ops))
        < (Ev.selfResolutionSet :: List.map Ev.callInitiated (queuedCallIds ops)).length :=
          List.indexOf_lt_length.mpr hcA
      _ ≤ _ := Nat.le_add_right _ _
  · rw [htr, List.indexOf_append_of_not_mem hwA, List.indexOf_append_of_not_mem hkA,
      List.indexOf_append_of_mem hwB, List.indexOf_append_of_not_mem hkB]
    have hlt := List.indexOf_lt_length.mpr hwB
    omega

/-- Witness for claim C3 at a concrete operation sequence: two calls queued
around one whenMoreResolved registration. -/
theorem queuedClient_resolution_ordering_witness :
    Ev.completionObservable 1
        ∈ queuedScenarioTrace [QOp.queuedCall 1, QOp.registerWmr 5, QOp.queuedCall 2] ∧
    List.indexOf (Ev.callInitiated 1)
        (queuedScenarioTrace [QOp.queuedCall 1, QOp.registerWmr 5, QOp.queuedCall 2])
      < List.indexOf (Ev.wmrResolved 5)
        (queuedScenarioTrace [QOp.queuedCall 1, QOp.registerWmr 5, QOp.queuedCall 2]) ∧
    List.indexOf (Ev.wmrResolved 5)
        (queuedScenarioTrace [QOp.queuedCall 1, QOp.registerWmr 5, QOp.queuedCall 2])
      < List.indexOf (Ev.completionObservable 1)
        (queuedScenarioTrace [QOp.queuedCall 1, QOp.registerWmr 5, QOp.queuedCall 2]) :=
  queuedClient_resolution_ordering [QOp.queuedCall 1, QOp.registerWmr 5, QOp.queuedCall 2]
    1 5 (by decide) (by decide)

/-- Claim C4: under the default cancellation policy (the cancel-allowed signal
never fulfilled), dropping the caller branch of the completion future only sets
cancelRequested on the call context (observable through isCanceled) and leaves
the rest of the state untouched; the server future is not dropped and the
daemonised branch still drives it to completion. -/
theorem dropCallerFuture_default (s : SendState)
    (h : s.ctx.cancelAllowedFulfilled = false) (hd : s.serverDropped = false) :
    dropCallerFuture s
        = { s with ctx := { s.ctx with cancelRequested := true },
                   callerHoldsFuture := false } ∧
    (dropCallerFuture s).serverDropped = false ∧
    LocalCallContext.isCanceled (dropCallerFuture s).ctx = true ∧
    (driveServer (dropCallerFuture s)).serverCompleted = true := by
  have h1 : dropCallerFuture s
      = { s with ctx := { s.ctx with cancelRequested := true },
                 callerHoldsFuture := false } := by
    simp [dropCallerFuture, h]
  refine ⟨h1, ?_, ?_, ?_⟩ <;> simp [h1, driveServer, hd, LocalCallContext.isCanceled]

/-- Witness for claim C4 at a concrete in-flight call. -/
theorem dropCallerFuture_default_witness :
    dropCallerFuture sampleSend
        = { sampleSend with ctx := { sampleSend.ctx with cancelRequested := true },
                            callerHoldsFuture := false } ∧
    (dropCallerFuture sampleSend).serverDropped = false ∧
    LocalCallContext.isCanceled (dropCallerFuture sampleSend).ctx = true ∧
    (driveServer (dropCallerFuture sampleSend)).serverCompleted = true :=
  dropCallerFuture_default sampleSend rfl rfl

/-- Claim C5: on a context whose response has not been allocated, tailCall
succeeds: it releases the params, sends the supplied request on its target
client, arranges for the response of that request to become this context
response, delivers the forwarded pipeline to the onTailCall subscriber, and
returns a completion that is the completion of the forwarded request. -/
theorem tailCall_forwards (sendFn : RequestHookM → SentCall) (req : RequestHookM)
    (ctx : LocalCallContext) (f : Nat)
    (hresp : ctx.response = none) (hful : ctx.tailCallFulfiller = some f) :
    ∃ vp ctx2,
      LocalCallContext.tailCall sendFn req ctx = Except.ok (vp, ctx2) ∧
      ctx2.request = none ∧
      vp.forwardedCompletion = (sendFn req).completion ∧
      vp.responseToInstall = (sendFn req).response ∧
      (runTailVoidPromise vp ctx2).response = some (sendFn req).response ∧
      ctx2.tailPipelineDelivered = some (sendFn req).pipeline := by
  refine ⟨{ forwardedCompletion := (sendFn req).completion,
            responseToInstall := (sendFn req).response },
          { LocalCallContext.releaseParams ctx with
            tailPipelineDelivered := some (sendFn req).pipeline },
          ?_, rfl, rfl, rfl, ?_, rfl⟩
  · simp [LocalCallContext.tailCall, LocalCallContext.directTailCall, hresp,
      LocalCallContext.releaseParams, hful]
  · simp [runTailVoidPromise]

/-- Witness for claim C5 at a concrete context, request and host send
function. -/
theorem tailCall_forwards_witness :
    ∃ vp ctx2,
      LocalCallContext.tailCall sampleSendFn sampleReq sampleCtx = Except.ok (vp, ctx2) ∧
      ctx2.request = none ∧
      vp.forwardedCompletion = (sampleSendFn sampleReq).completion ∧
      vp.responseToInstall = (sampleSendFn sampleReq).response ∧
      (runTailVoidPromise vp ctx2).response = some (sampleSendFn sampleReq).response ∧
      ctx2.tailPipelineDelivered = some (sampleSendFn sampleReq).pipeline :=
  tailCall_forwards sampleSendFn sampleReq sampleCtx 3 rfl rfl
